import Mathlib

/-!
Verification of the two-bucket S3 replication script `s3_rep.py`.

The script performs a resilient two-way sync between a primary and a secondary
S3 bucket.  We shallowly embed its functions as pure Lean functions:

* S3 object keys and ISO-8601 timestamps are Lean `String`s (Python compares
  both lexicographically, as does Lean's `String` linear order);
* a bucket listing / Python dict `{key: last_modified}` is an association list
  `List (Key × Time)` with `lookupKey` giving `dict.get` semantics;
* the remote S3 calls are modelled by explicit inputs: a listing attempt
  carries the pages retrieved together with an optional `ClientError`,
  `get_object`/`put_object` outcomes are injected per replica, and the
  effect of `s3.copy` / `s3.delete_object` is applied to explicit bucket maps
  (a copy transfers the object together with its timestamp);
* the checkpointed main loop `replicate_resilient` is a fold over the sorted
  key list, threading the two bucket maps, the in-memory completed set and
  the persisted progress-log object, and recording one trace entry per
  executed action.
-/

namespace S3Rep

/-- S3 object keys (Python `str`). -/
abbrev Key := String

/-- ISO-8601 timestamps, compared lexicographically exactly as Python compares
the strings produced by `datetime.isoformat()`. -/
abbrev Time := String

/-- A `botocore` `ClientError`, identified by its error code
(`e.response['Error']['Code']`). -/
structure ClientError where
  code : String
deriving DecidableEq

/-- A bucket listing / Python dict mapping object keys to last-modified
timestamps. -/
abbrev Listing := List (Key × Time)

/-- Python `dict.get` / `dict[...]`: the value bound to `k`, if any. -/
def lookupKey {β : Type} : List (Key × β) → Key → Option β
  | [], _ => Option.none
  | p :: rest, k => if k = p.1 then Option.some p.2 else lookupKey rest k

/-- The keys of a dict (`set(d)` in Python). -/
def keysOf {β : Type} (l : List (Key × β)) : List Key := l.map Prod.fst

/-- Remove every binding of key `k` (the effect of `s3.delete_object`). -/
def eraseKey (l : Listing) (k : Key) : Listing := l.filter (fun p => p.1 != k)

/-- Bind key `k` to timestamp `t`, replacing any previous binding (the effect
of `s3.copy` on the destination bucket, the copied object's timestamp standing
for its content). -/
def setKey (l : Listing) (k : Key) (t : Time) : Listing := eraseKey l k ++ [(k, t)]

/-- Embeds `STATE_KEY` of `s3_rep.py`: the durable snapshot object. -/
def STATE_KEY : String := "replication_state.json"

/-- Embeds `LOG_KEY` of `s3_rep.py`: the per-run progress-log object. -/
def LOG_KEY : String := "replication.log.json"

/-- A record of `state["files"]`, as produced by `rebuild_files_state`. -/
structure FileRecord where
  last_synced : Time
  last_seen_in : List String
  source : String
deriving DecidableEq

/-- The durable replication state (`replication_state.json`). -/
structure RepState where
  files : List (Key × FileRecord)
  last_updated : Time
deriving DecidableEq

/-- One attempt to paginate `list_objects_v2` over a bucket: the objects
yielded before pagination ended, and the `ClientError` that interrupted it,
if any. -/
structure ListAttempt where
  objects : List (Key × Time)
  error : Option ClientError
deriving DecidableEq

/-- Embeds `list_bucket_objects` (s3_rep.py lines 63-75): accumulates the
key-to-last-modified dict over all pages, skipping the two control keys.  The
`except ClientError` arm only prints a `CRITICAL` message: the function
returns the dict accumulated so far — the `error` field never influences the
result and is never propagated. -/
def list_bucket_objects (att : ListAttempt) : Listing :=
  att.objects.filter (fun obj => obj.1 != STATE_KEY && obj.1 != LOG_KEY)

/-- Lexicographic code-point comparison of character lists: the order Python
uses on `str`.  (Defined by structural recursion so that it evaluates inside
the kernel; proved below to agree with Mathlib's order on `String`.) -/
def charListLt : List Char → List Char → Bool
  | _, [] => false
  | [], _ :: _ => true
  | a :: as, b :: bs =>
    if a < b then true
    else if b < a then false
    else charListLt as bs

/-- Python's `<` on strings (used both for timestamp comparison in
`rebuild_files_state` and for `sorted(...)` over keys). -/
def pyLt (a b : String) : Bool := charListLt a.data b.data

/-- Python's `<=` on strings: the total order `sorted(...)` arranges keys by. -/
def pyLe (a b : String) : Bool := !(pyLt b a)

/-- The record `rebuild_files_state` builds for one key (s3_rep.py lines
84-103): where the key currently lives, the sync time, and a `source` chosen
by comparing the two timestamps, a missing side defaulting to the empty
string (`primary_files.get(key, "")`). -/
def rebuildRecord (tNow : Time) (primary_files secondary_files : Listing)
    (key : Key) : FileRecord :=
  { last_synced := tNow,
    last_seen_in :=
      (if (lookupKey primary_files key).isSome then ["primary"] else []) ++
      (if (lookupKey secondary_files key).isSome then ["secondary"] else []),
    source :=
      if pyLt ((lookupKey secondary_files key).getD "")
          ((lookupKey primary_files key).getD "") then "primary"
      else if pyLt ((lookupKey primary_files key).getD "")
          ((lookupKey secondary_files key).getD "") then "secondary"
      else "equal" }

/-- Embeds `rebuild_files_state` (s3_rep.py lines 78-104): one `rebuildRecord` per
key present in either final listing. -/
def rebuild_files_state (tNow : Time) (primary_files secondary_files : Listing) :
    List (Key × FileRecord) :=
  ((keysOf primary_files ++ keysOf secondary_files).dedup).map (fun key =>
    (key, rebuildRecord tNow primary_files secondary_files key))

/-- The outcome of `get_object(Bucket=…, Key=LOG_KEY)` on each replica.  The
source only ever issues the primary-side call. -/
structure LogReadEnv where
  primaryRead : Except ClientError (List Key)
  secondaryRead : Except ClientError (List Key)

/-- Embeds `load_progress_log` (s3_rep.py lines 107-118): reads the log from the
primary bucket only ("the primary bucket is the source of truth for the
log").  On `NoSuchKey` it returns the empty set silently; on any other
`ClientError` it prints a warning (second component) and still returns the
empty set.  The secondary replica's copy is never consulted. -/
def load_progress_log (env : LogReadEnv) : List Key × List String :=
  match env.primaryRead with
  | Except.ok keys => (keys, [])
  | Except.error e =>
    if e.code = "NoSuchKey" then ([], [])
    else ([], ["could not load progress log, proceeding without it"])

/-- Which of the two `put_object` calls of `save_state` fail with a
`ClientError`. -/
structure PutEnv where
  primaryPutFails : Bool
  secondaryPutFails : Bool
deriving DecidableEq

/-- What a run of `save_state` did: the replicas successfully written and the
warnings printed for the failed ones. -/
structure SaveOutcome where
  savedTo : List String
  warnings : List String
deriving DecidableEq

/-- Embeds `save_state` (s3_rep.py lines 51-60): writes the snapshot to both buckets
in turn; each `ClientError` is caught inside the loop and only produces a
printed warning, so the function always returns normally. -/
def save_state (env : PutEnv) : SaveOutcome :=
  [("primary", env.primaryPutFails), ("secondary", env.secondaryPutFails)].foldl
    (fun acc b =>
      if b.2 then
        { acc with warnings := acc.warnings ++ ["could not save final state to " ++ b.1] }
      else
        { acc with savedTo := acc.savedTo ++ [b.1] })
    { savedTo := [], warnings := [] }

/-- Python truthiness of an optional timestamp string: `None` and `""` are
falsy (`if p_time and not s_time:`). -/
def truthy : Option String → Bool
  | Option.none => false
  | Option.some s => !(s == "")

/-- Embeds the test `in_state and loc in last_seen_in` applied to the record
looked up in the snapshot (absent record means `in_state` is false). -/
def seenIn (rec : Option FileRecord) (loc : String) : Bool :=
  match rec with
  | Option.none => false
  | Option.some r => r.last_seen_in.contains loc

/-- The per-key action of the reconciliation loop. -/
inductive Action where
  | deleteFromPrimary
  | copyPrimaryToSecondary
  | deleteFromSecondary
  | copySecondaryToPrimary
  | noop
deriving DecidableEq

/-- The per-key decision of `replicate_resilient` (s3_rep.py lines 171-213):
present (truthy) only in primary → delete from primary if the snapshot last
saw the key in secondary, else copy primary→secondary; symmetrically for
secondary; otherwise no action (`action_taken` stays false). -/
def decide_action (p_time s_time : Option Time) (rec : Option FileRecord) : Action :=
  if truthy p_time && !truthy s_time then
    if seenIn rec "secondary" then Action.deleteFromPrimary
    else Action.copyPrimaryToSecondary
  else if truthy s_time && !truthy p_time then
    if seenIn rec "primary" then Action.deleteFromSecondary
    else Action.copySecondaryToPrimary
  else Action.noop

/-- The mutable state threaded through the reconciliation loop of
`replicate_resilient`: the live contents of the two buckets, the in-memory
`completed_this_run` set, and the current contents of the persisted
progress-log object (`None` when no log object exists). -/
structure RunState where
  primary : Listing
  secondary : Listing
  completed : List Key
  savedLog : Option (List Key)
deriving DecidableEq

/-- The remote effect of one planned action on the two buckets
(s3_rep.py lines 177, 182, 190, 196).  `s3.copy` is modelled as installing
the source object — with its timestamp — under the same key in the
destination bucket. -/
def applyAct (rs : RunState) (k : Key) : Action → RunState
  | Action.deleteFromPrimary => { rs with primary := eraseKey rs.primary k }
  | Action.copyPrimaryToSecondary =>
      { rs with secondary := setKey rs.secondary k ((lookupKey rs.primary k).getD "") }
  | Action.deleteFromSecondary => { rs with secondary := eraseKey rs.secondary k }
  | Action.copySecondaryToPrimary =>
      { rs with primary := setKey rs.primary k ((lookupKey rs.secondary k).getD "") }
  | Action.noop => rs

/-- One executed (non-noop) action of a run: the key, the action, and the
full completed set persisted by `save_progress_log` right afterwards. -/
structure ActionTrace where
  key : Key
  act : Action
  checkpoint : List Key
deriving DecidableEq

/-- Result of the reconciliation loop: the final `RunState`, whether the loop
ran to completion (`ok = false` when a `ClientError` aborted it), and the
trace of executed actions. -/
structure LoopOut where
  rs : RunState
  ok : Bool
  trace : List ActionTrace
deriving DecidableEq

/-- Embeds `completed_this_run.add(key)` followed by `save_progress_log`:
apply the action's remote effect, then checkpoint the whole completed set
(s3_rep.py lines 215-218). -/
def stepAct (rs : RunState) (k : Key) (a : Action) : RunState :=
  { applyAct rs k a with
    completed := rs.completed ++ [k],
    savedLog := Option.some (rs.completed ++ [k]) }

/-- The `for key in sorted(list(all_keys))` loop of `replicate_resilient`
(s3_rep.py lines 161-223).  `F` is `state["files"]`; `fa` is the set of keys
whose remote copy/delete raises a `ClientError` (the failed call leaving the
buckets unchanged).  Completed keys are skipped, a noop leaves everything
unchanged, an action failure returns immediately (`return` in the `except`
arm), and a successful action is followed by the checkpoint. -/
def runLoop (F : List (Key × FileRecord)) (fa : List Key) :
    RunState → List Key → LoopOut
  | rs, [] => ⟨rs, true, []⟩
  | rs, k :: ks =>
    if k ∈ rs.completed then runLoop F fa rs ks
    else if decide_action (lookupKey rs.primary k) (lookupKey rs.secondary k)
        (lookupKey F k) = Action.noop then
      runLoop F fa rs ks
    else if k ∈ fa then ⟨rs, false, []⟩
    else
      let out := runLoop F fa
        (stepAct rs k (decide_action (lookupKey rs.primary k)
          (lookupKey rs.secondary k) (lookupKey F k))) ks
      ⟨out.rs, out.ok,
        ⟨k, decide_action (lookupKey rs.primary k) (lookupKey rs.secondary k)
          (lookupKey F k), rs.completed ++ [k]⟩ :: out.trace⟩

/-- The durable world a run starts from and leaves behind: the two buckets'
user objects, plus the snapshot object and the progress-log object (each
written redundantly to both buckets by the source; we model the surviving
copy once, since both replicas receive identical bytes). -/
structure Store where
  primary : Listing
  secondary : Listing
  stateObj : Option RepState
  logObj : Option (List Key)
deriving DecidableEq

/-- How a run of `replicate_resilient` ended: normally, or by the early
`return` in the action `except` arm. -/
inductive Outcome where
  | completed
  | abortedOnError
deriving DecidableEq

/-- Everything a run of `replicate_resilient` produced: the final durable
world, how it ended, the executed-action trace, and whether
`delete_progress_log` was reached. -/
structure RunResult where
  store : Store
  outcome : Outcome
  trace : List ActionTrace
  clearedLog : Bool
deriving DecidableEq

/-- Embeds `load_state` (s3_rep.py lines 27-48) on the modelled single surviving
copy: the stored snapshot if one exists, else a fresh empty state. -/
def load_state (tNow : Time) (st : Store) : RepState :=
  match st.stateObj with
  | Option.some s => s
  | Option.none => { files := [], last_updated := tNow }

/-- The key set `load_progress_log` yields from the stored log object:
its contents, or the empty set when the object is missing. -/
def loadLogKeys : Option (List Key) → List Key
  | Option.none => []
  | Option.some l => l

/-- Embeds the key enumeration of s3_rep.py lines 157-161, Python
`sorted(list(all_keys))` over the union of the two listings' keys and the
snapshot's keys: deduplicated and in ascending lexicographic order. -/
def allKeys (P S : Listing) (F : List (Key × FileRecord)) : List Key :=
  List.insertionSort (fun a b => pyLe a b = true)
    ((keysOf P ++ keysOf S ++ keysOf F).dedup)

/-- The key list the run iterates over. -/
def planKeys (tNow : Time) (st : Store) : List Key :=
  allKeys st.primary st.secondary (load_state tNow st).files

/-- The loop's starting state: live listings, `completed_this_run`
initialised from the prior run's log, log object as stored. -/
def initRS (st : Store) : RunState :=
  ⟨st.primary, st.secondary, loadLogKeys st.logObj, st.logObj⟩

/-- The tail of `replicate_resilient` (s3_rep.py lines 220-232): on an action
failure the function returns early, leaving the snapshot object and the last
checkpoint in place; on success it rebuilds the state from fresh listings,
saves it, and deletes the progress log. -/
def finishRun (tNow : Time) (st : Store) (out : LoopOut) : RunResult :=
  if out.ok then
    { store := { primary := out.rs.primary, secondary := out.rs.secondary,
                 stateObj := Option.some
                   { files := rebuild_files_state tNow out.rs.primary out.rs.secondary,
                     last_updated := tNow },
                 logObj := Option.none },
      outcome := Outcome.completed, trace := out.trace, clearedLog := true }
  else
    { store := { primary := out.rs.primary, secondary := out.rs.secondary,
                 stateObj := st.stateObj, logObj := out.rs.savedLog },
      outcome := Outcome.abortedOnError, trace := out.trace, clearedLog := false }

/-- Embeds `replicate_resilient` (s3_rep.py lines 141-232), as a function of the
current time, the set of keys whose remote action fails, and the durable
world.  The live listings fed to the loop are the buckets' current contents
(control keys live outside the `Listing`s of a `Store`). -/
def replicate_resilient (tNow : Time) (fa : List Key) (st : Store) : RunResult :=
  finishRun tNow st
    (runLoop (load_state tNow st).files fa (initRS st) (planKeys tNow st))

/-- The durable world left behind when the process is killed right after the
checkpoint that concluded the `n`-th visited key: the loop has run over the
first `n` keys only, the snapshot object is untouched, and the log object
holds the last persisted checkpoint. -/
def midRunStore (tNow : Time) (st : Store) (n : Nat) : Store :=
  { primary := (runLoop (load_state tNow st).files [] (initRS st)
      ((planKeys tNow st).take n)).rs.primary,
    secondary := (runLoop (load_state tNow st).files [] (initRS st)
      ((planKeys tNow st).take n)).rs.secondary,
    stateObj := st.stateObj,
    logObj := (runLoop (load_state tNow st).files [] (initRS st)
      ((planKeys tNow st).take n)).rs.savedLog }

/-- The `__main__` block (s3_rep.py lines 235-238): every modelled
`ClientError` inside `replicate_resilient` is caught there, so the script
always reaches the closing `print` and the process exits with status 0. -/
def scriptExitCode (tNow : Time) (fa : List Key) (st : Store) : Nat :=
  let _ := replicate_resilient tNow fa st
  0

/-- Specification helper: the sequence of cumulative checkpoint sets obtained
by appending each executed key in turn to `base`. -/
def cumulativeAppends (base : List Key) : List Key → List (List Key)
  | [] => []
  | k :: ks => (base ++ [k]) :: cumulativeAppends (base ++ [k]) ks

/-- Well-formedness of a listing produced by `list_bucket_objects`: every
last-modified value is a nonempty string (as `datetime.isoformat()` always
is), so Python's truthiness test coincides with key presence. -/
def ListingWF (l : Listing) : Prop := ∀ p ∈ l, p.2 ≠ ""

instance (l : Listing) : Decidable (ListingWF l) :=
  inferInstanceAs (Decidable (∀ p ∈ l, p.2 ≠ ""))

/-! ### Association-list lemmas -/

theorem lookupKey_nil {β : Type} (k : Key) :
    lookupKey ([] : List (Key × β)) k = Option.none := rfl

theorem lookupKey_cons {β : Type} (p : Key × β) (l : List (Key × β)) (k : Key) :
    lookupKey (p :: l) k = if k = p.1 then Option.some p.2 else lookupKey l k := rfl

theorem eraseKey_cons (p : Key × Time) (l : Listing) (k : Key) :
    eraseKey (p :: l) k = if p.1 = k then eraseKey l k else p :: eraseKey l k := by
  by_cases h : p.1 = k
  · simp [eraseKey, List.filter_cons, h]
  · simp [eraseKey, List.filter_cons, h]

theorem lookupKey_eraseKey_ne {l : Listing} {k k' : Key} (h : k' ≠ k) :
    lookupKey (eraseKey l k) k' = lookupKey l k' := by
  induction l with
  | nil => rfl
  | cons p rest ih =>
    rw [eraseKey_cons, lookupKey_cons]
    by_cases hp : p.1 = k
    · rw [if_pos hp, ih, if_neg (by rw [hp]; exact h)]
    · rw [if_neg hp, lookupKey_cons, ih]

theorem lookupKey_append {β : Type} (l₁ l₂ : List (Key × β)) (k : Key) :
    lookupKey (l₁ ++ l₂) k =
      match lookupKey l₁ k with
      | Option.some v => Option.some v
      | Option.none => lookupKey l₂ k := by
  induction l₁ with
  | nil => rfl
  | cons p rest ih =>
    rw [List.cons_append, lookupKey_cons, lookupKey_cons]
    by_cases hp : k = p.1
    · rw [if_pos hp, if_pos hp]
    · rw [if_neg hp, if_neg hp, ih]

theorem lookupKey_setKey_self (l : Listing) (k : Key) (t : Time) :
    lookupKey (setKey l k t) k = Option.some t := by
  rw [setKey, lookupKey_append]
  have h : lookupKey (eraseKey l k) k = Option.none := by
    induction l with
    | nil => rfl
    | cons p rest ih =>
      rw [eraseKey_cons]
      by_cases hp : p.1 = k
      · rw [if_pos hp]; exact ih
      · rw [if_neg hp, lookupKey_cons, if_neg (fun hh => hp hh.symm)]; exact ih
  rw [h]
  simp [lookupKey]

theorem lookupKey_setKey_ne {l : Listing} {k k' : Key} (t : Time) (h : k' ≠ k) :
    lookupKey (setKey l k t) k' = lookupKey l k' := by
  rw [setKey, lookupKey_append, lookupKey_eraseKey_ne h]
  cases hv : lookupKey l k' with
  | some v => rfl
  | none => simp [lookupKey, h]

theorem keysOf_nil {β : Type} : keysOf ([] : List (Key × β)) = [] := rfl

theorem keysOf_cons {β : Type} (p : Key × β) (l : List (Key × β)) :
    keysOf (p :: l) = p.1 :: keysOf l := rfl

theorem keysOf_append {β : Type} (l₁ l₂ : List (Key × β)) :
    keysOf (l₁ ++ l₂) = keysOf l₁ ++ keysOf l₂ := List.map_append _ _ _

theorem mem_keysOf_iff_isSome {β : Type} (l : List (Key × β)) (k : Key) :
    k ∈ keysOf l ↔ (lookupKey l k).isSome := by
  induction l with
  | nil => simp [keysOf, lookupKey]
  | cons p rest ih =>
    rw [keysOf_cons, List.mem_cons, lookupKey_cons, ih]
    by_cases hp : k = p.1
    · simp [hp]
    · simp [hp]

theorem mem_keysOf_eraseKey {l : Listing} {k k' : Key} :
    k' ∈ keysOf (eraseKey l k) ↔ (k' ∈ keysOf l ∧ k' ≠ k) := by
  induction l with
  | nil => simp [eraseKey, keysOf]
  | cons p rest ih =>
    rw [eraseKey_cons]
    by_cases hp : p.1 = k
    · rw [if_pos hp, ih, keysOf_cons, List.mem_cons]
      constructor
      · rintro ⟨h1, h2⟩; exact ⟨Or.inr h1, h2⟩
      · rintro ⟨h1 | h1, h2⟩
        · exact absurd (h1.trans hp) h2
        · exact ⟨h1, h2⟩
    · rw [if_neg hp, keysOf_cons, keysOf_cons, List.mem_cons, List.mem_cons, ih]
      constructor
      · rintro (h1 | ⟨h1, h2⟩)
        · exact ⟨Or.inl h1, fun hh => hp (hh ▸ h1).symm⟩
        · exact ⟨Or.inr h1, h2⟩
      · rintro ⟨h1 | h1, h2⟩
        · exact Or.inl h1
        · exact Or.inr ⟨h1, h2⟩

theorem mem_keysOf_setKey {l : Listing} {k k' : Key} {t : Time} :
    k' ∈ keysOf (setKey l k t) ↔ ((k' ∈ keysOf l ∧ k' ≠ k) ∨ k' = k) := by
  rw [setKey, keysOf_append, List.mem_append, mem_keysOf_eraseKey]
  simp [keysOf]

/-! ### Decision and step lemmas -/

theorem truthy_isSome {o : Option String} (h : truthy o = true) : o.isSome := by
  cases o with
  | none => exact absurd h (by simp [truthy])
  | some s => rfl

theorem seenIn_isSome {r : Option FileRecord} {loc : String}
    (h : seenIn r loc = true) : r.isSome := by
  cases r with
  | none => exact absurd h (by simp [seenIn])
  | some rec => rfl

theorem decide_action_spec (p s : Option Time) (r : Option FileRecord) :
    (decide_action p s r = Action.deleteFromPrimary → seenIn r "secondary" = true) ∧
    (decide_action p s r = Action.copyPrimaryToSecondary → truthy p = true) ∧
    (decide_action p s r = Action.deleteFromSecondary → seenIn r "primary" = true) ∧
    (decide_action p s r = Action.copySecondaryToPrimary → truthy s = true) := by
  by_cases h1 : (truthy p && !truthy s) = true
  · by_cases h2 : seenIn r "secondary" = true
    · simp only [decide_action, if_pos h1, if_pos h2]
      exact ⟨fun _ => h2, fun h => Action.noConfusion h,
        fun h => Action.noConfusion h, fun h => Action.noConfusion h⟩
    · simp only [decide_action, if_pos h1, if_neg h2]
      have hp : truthy p = true := by
        have h1' := h1
        simp only [Bool.and_eq_true] at h1'
        exact h1'.1
      exact ⟨fun h => Action.noConfusion h, fun _ => hp,
        fun h => Action.noConfusion h, fun h => Action.noConfusion h⟩
  · by_cases h3 : (truthy s && !truthy p) = true
    · by_cases h4 : seenIn r "primary" = true
      · simp only [decide_action, if_neg h1, if_pos h3, if_pos h4]
        exact ⟨fun h => Action.noConfusion h, fun h => Action.noConfusion h,
          fun _ => h4, fun h => Action.noConfusion h⟩
      · simp only [decide_action, if_neg h1, if_pos h3, if_neg h4]
        have hs : truthy s = true := by
          have h3' := h3
          simp only [Bool.and_eq_true] at h3'
          exact h3'.1
        exact ⟨fun h => Action.noConfusion h, fun h => Action.noConfusion h,
          fun h => Action.noConfusion h, fun _ => hs⟩
    · simp only [decide_action, if_neg h1, if_neg h3]
      exact ⟨fun h => Action.noConfusion h, fun h => Action.noConfusion h,
        fun h => Action.noConfusion h, fun h => Action.noConfusion h⟩

theorem applyAct_completed (rs : RunState) (k : Key) (a : Action) :
    (applyAct rs k a).completed = rs.completed := by cases a <;> rfl

theorem applyAct_savedLog (rs : RunState) (k : Key) (a : Action) :
    (applyAct rs k a).savedLog = rs.savedLog := by cases a <;> rfl

theorem applyAct_lookup_ne (rs : RunState) (k : Key) (a : Action) {k' : Key}
    (h : k' ≠ k) :
    lookupKey (applyAct rs k a).primary k' = lookupKey rs.primary k' ∧
    lookupKey (applyAct rs k a).secondary k' = lookupKey rs.secondary k' := by
  cases a <;>
    simp [applyAct, lookupKey_eraseKey_ne h, lookupKey_setKey_ne _ h]

theorem stepAct_completed (rs : RunState) (k : Key) (a : Action) :
    (stepAct rs k a).completed = rs.completed ++ [k] := rfl

theorem stepAct_savedLog (rs : RunState) (k : Key) (a : Action) :
    (stepAct rs k a).savedLog = Option.some (rs.completed ++ [k]) := rfl

theorem stepAct_primary (rs : RunState) (k : Key) (a : Action) :
    (stepAct rs k a).primary = (applyAct rs k a).primary := rfl

theorem stepAct_secondary (rs : RunState) (k : Key) (a : Action) :
    (stepAct rs k a).secondary = (applyAct rs k a).secondary := rfl

theorem stepAct_lookup_ne (rs : RunState) (k : Key) (a : Action) {k' : Key}
    (h : k' ≠ k) :
    lookupKey (stepAct rs k a).primary k' = lookupKey rs.primary k' ∧
    lookupKey (stepAct rs k a).secondary k' = lookupKey rs.secondary k' := by
  rw [stepAct_primary, stepAct_secondary]
  exact applyAct_lookup_ne rs k a h

set_option maxHeartbeats 1000000 in
theorem stepAct_union (rs : RunState) (F : List (Key × FileRecord)) (k : Key)
    (ha : decide_action (lookupKey rs.primary k) (lookupKey rs.secondary k)
      (lookupKey F k) ≠ Action.noop) (k' : Key) :
    ((k' ∈ keysOf (stepAct rs k (decide_action (lookupKey rs.primary k)
        (lookupKey rs.secondary k) (lookupKey F k))).primary ∨
      k' ∈ keysOf (stepAct rs k (decide_action (lookupKey rs.primary k)
        (lookupKey rs.secondary k) (lookupKey F k))).secondary ∨
      k' ∈ keysOf F) ↔
     (k' ∈ keysOf rs.primary ∨ k' ∈ keysOf rs.secondary ∨ k' ∈ keysOf F)) := by
  have spec := decide_action_spec (lookupKey rs.primary k)
    (lookupKey rs.secondary k) (lookupKey F k)
  rw [stepAct_primary, stepAct_secondary]
  cases hE : decide_action (lookupKey rs.primary k) (lookupKey rs.secondary k)
      (lookupKey F k) with
  | deleteFromPrimary =>
    have hkF : k ∈ keysOf F :=
      (mem_keysOf_iff_isSome F k).mpr (seenIn_isSome (spec.1 hE))
    simp only [applyAct, mem_keysOf_eraseKey]
    by_cases hkk : k' = k
    · subst hkk; tauto
    · tauto
  | copyPrimaryToSecondary =>
    have hkP : k ∈ keysOf rs.primary :=
      (mem_keysOf_iff_isSome _ k).mpr (truthy_isSome (spec.2.1 hE))
    simp only [applyAct, mem_keysOf_setKey]
    by_cases hkk : k' = k
    · subst hkk; tauto
    · tauto
  | deleteFromSecondary =>
    have hkF : k ∈ keysOf F :=
      (mem_keysOf_iff_isSome F k).mpr (seenIn_isSome (spec.2.2.1 hE))
    simp only [applyAct, mem_keysOf_eraseKey]
    by_cases hkk : k' = k
    · subst hkk; tauto
    · tauto
  | copySecondaryToPrimary =>
    have hkS : k ∈ keysOf rs.secondary :=
      (mem_keysOf_iff_isSome _ k).mpr (truthy_isSome (spec.2.2.2 hE))
    simp only [applyAct, mem_keysOf_setKey]
    by_cases hkk : k' = k
    · subst hkk; tauto
    · tauto
  | noop => exact absurd hE ha

/-! ### Loop unfolding lemmas -/

theorem runLoop_nil (F : List (Key × FileRecord)) (fa : List Key) (rs : RunState) :
    runLoop F fa rs [] = ⟨rs, true, []⟩ := rfl

theorem runLoop_cons (F : List (Key × FileRecord)) (fa : List Key) (rs : RunState)
    (k : Key) (ks : List Key) :
    runLoop F fa rs (k :: ks) =
      if k ∈ rs.completed then runLoop F fa rs ks
      else if decide_action (lookupKey rs.primary k) (lookupKey rs.secondary k)
          (lookupKey F k) = Action.noop then
        runLoop F fa rs ks
      else if k ∈ fa then ⟨rs, false, []⟩
      else
        ⟨(runLoop F fa (stepAct rs k (decide_action (lookupKey rs.primary k)
            (lookupKey rs.secondary k) (lookupKey F k))) ks).rs,
         (runLoop F fa (stepAct rs k (decide_action (lookupKey rs.primary k)
            (lookupKey rs.secondary k) (lookupKey F k))) ks).ok,
         ⟨k, decide_action (lookupKey rs.primary k) (lookupKey rs.secondary k)
            (lookupKey F k), rs.completed ++ [k]⟩ ::
          (runLoop F fa (stepAct rs k (decide_action (lookupKey rs.primary k)
            (lookupKey rs.secondary k) (lookupKey F k))) ks).trace⟩ := rfl

theorem runLoop_cons_skip {F : List (Key × FileRecord)} {fa : List Key}
    {rs : RunState} {k : Key} {ks : List Key} (h : k ∈ rs.completed) :
    runLoop F fa rs (k :: ks) = runLoop F fa rs ks := by
  rw [runLoop_cons, if_pos h]

theorem runLoop_cons_noop {F : List (Key × FileRecord)} {fa : List Key}
    {rs : RunState} {k : Key} {ks : List Key} (h1 : k ∉ rs.completed)
    (h2 : decide_action (lookupKey rs.primary k) (lookupKey rs.secondary k)
      (lookupKey F k) = Action.noop) :
    runLoop F fa rs (k :: ks) = runLoop F fa rs ks := by
  rw [runLoop_cons, if_neg h1, if_pos h2]

theorem runLoop_cons_fail {F : List (Key × FileRecord)} {fa : List Key}
    {rs : RunState} {k : Key} {ks : List Key} (h1 : k ∉ rs.completed)
    (h2 : decide_action (lookupKey rs.primary k) (lookupKey rs.secondary k)
      (lookupKey F k) ≠ Action.noop) (h3 : k ∈ fa) :
    runLoop F fa rs (k :: ks) = ⟨rs, false, []⟩ := by
  rw [runLoop_cons, if_neg h1, if_neg h2, if_pos h3]

theorem runLoop_cons_act {F : List (Key × FileRecord)} {fa : List Key}
    {rs : RunState} {k : Key} {ks : List Key} (h1 : k ∉ rs.completed)
    (h2 : decide_action (lookupKey rs.primary k) (lookupKey rs.secondary k)
      (lookupKey F k) ≠ Action.noop) (h3 : k ∉ fa) :
    runLoop F fa rs (k :: ks) =
      ⟨(runLoop F fa (stepAct rs k (decide_action (lookupKey rs.primary k)
          (lookupKey rs.secondary k) (lookupKey F k))) ks).rs,
       (runLoop F fa (stepAct rs k (decide_action (lookupKey rs.primary k)
          (lookupKey rs.secondary k) (lookupKey F k))) ks).ok,
       ⟨k, decide_action (lookupKey rs.primary k) (lookupKey rs.secondary k)
          (lookupKey F k), rs.completed ++ [k]⟩ ::
        (runLoop F fa (stepAct rs k (decide_action (lookupKey rs.primary k)
          (lookupKey rs.secondary k) (lookupKey F k))) ks).trace⟩ := by
  rw [runLoop_cons, if_neg h1, if_neg h2, if_neg h3]

/-! ### Loop invariants -/

/-- The completed set after the loop is the starting completed set followed by
the keys of the executed actions, in order. -/
theorem runLoop_completed (F : List (Key × FileRecord)) (fa : List Key)
    (rs : RunState) (l : List Key) :
    (runLoop F fa rs l).rs.completed =
      rs.completed ++ ((runLoop F fa rs l).trace.map (fun t => t.key)) := by
  induction l generalizing rs with
  | nil => simp [runLoop_nil]
  | cons k ks ih =>
    by_cases h1 : k ∈ rs.completed
    · rw [runLoop_cons_skip h1]; exact ih rs
    · by_cases h2 : decide_action (lookupKey rs.primary k)
          (lookupKey rs.secondary k) (lookupKey F k) = Action.noop
      · rw [runLoop_cons_noop h1 h2]; exact ih rs
      · by_cases h3 : k ∈ fa
        · rw [runLoop_cons_fail h1 h2 h3]; simp
        · rw [runLoop_cons_act h1 h2 h3]
          have := ih (stepAct rs k (decide_action (lookupKey rs.primary k)
            (lookupKey rs.secondary k) (lookupKey F k)))
          rw [stepAct_completed] at this
          simp only [this, List.map_cons, List.append_assoc, List.singleton_append]

/-- Every executed action's key comes from the visited list and was not
already completed when the loop started. -/
theorem runLoop_trace_keys (F : List (Key × FileRecord)) (fa : List Key)
    (rs : RunState) (l : List Key) :
    ∀ t ∈ (runLoop F fa rs l).trace, t.key ∈ l ∧ t.key ∉ rs.completed := by
  induction l generalizing rs with
  | nil => simp [runLoop_nil]
  | cons k ks ih =>
    by_cases h1 : k ∈ rs.completed
    · rw [runLoop_cons_skip h1]
      intro t ht
      exact ⟨List.mem_cons_of_mem _ (ih rs t ht).1, (ih rs t ht).2⟩
    · by_cases h2 : decide_action (lookupKey rs.primary k)
          (lookupKey rs.secondary k) (lookupKey F k) = Action.noop
      · rw [runLoop_cons_noop h1 h2]
        intro t ht
        exact ⟨List.mem_cons_of_mem _ (ih rs t ht).1, (ih rs t ht).2⟩
      · by_cases h3 : k ∈ fa
        · rw [runLoop_cons_fail h1 h2 h3]; simp
        · rw [runLoop_cons_act h1 h2 h3]
          intro t ht
          rcases List.mem_cons.mp ht with hh | hh
          · subst hh; exact ⟨List.mem_cons_self _ _, h1⟩
          · have hstep := ih (stepAct rs k (decide_action (lookupKey rs.primary k)
              (lookupKey rs.secondary k) (lookupKey F k))) t hh
            rw [stepAct_completed] at hstep
            refine ⟨List.mem_cons_of_mem _ hstep.1, fun hc => hstep.2 ?_⟩
            exact List.mem_append.mpr (Or.inl hc)

/-- With no injected action failures the loop always runs to completion. -/
theorem runLoop_ok_nofail (F : List (Key × FileRecord)) (rs : RunState)
    (l : List Key) : (runLoop F [] rs l).ok = true := by
  induction l generalizing rs with
  | nil => rfl
  | cons k ks ih =>
    by_cases h1 : k ∈ rs.completed
    · rw [runLoop_cons_skip h1]; exact ih rs
    · by_cases h2 : decide_action (lookupKey rs.primary k)
          (lookupKey rs.secondary k) (lookupKey F k) = Action.noop
      · rw [runLoop_cons_noop h1 h2]; exact ih rs
      · rw [runLoop_cons_act h1 h2 (List.not_mem_nil k)]
        exact ih _

/-- If the stored log object agrees with the in-memory completed set when the
loop starts, it still does when the loop stops. -/
theorem runLoop_savedLog (F : List (Key × FileRecord)) (fa : List Key)
    (rs : RunState) (l : List Key)
    (h : loadLogKeys rs.savedLog = rs.completed) :
    loadLogKeys (runLoop F fa rs l).rs.savedLog = (runLoop F fa rs l).rs.completed := by
  induction l generalizing rs with
  | nil => exact h
  | cons k ks ih =>
    by_cases h1 : k ∈ rs.completed
    · rw [runLoop_cons_skip h1]; exact ih rs h
    · by_cases h2 : decide_action (lookupKey rs.primary k)
          (lookupKey rs.secondary k) (lookupKey F k) = Action.noop
      · rw [runLoop_cons_noop h1 h2]; exact ih rs h
      · by_cases h3 : k ∈ fa
        · rw [runLoop_cons_fail h1 h2 h3]; exact h
        · rw [runLoop_cons_act h1 h2 h3]
          exact ih _ (by rw [stepAct_savedLog, stepAct_completed]; rfl)

/-- A key no executed action touched still has its original listing entries:
each action only modifies its own key in the buckets. -/
theorem runLoop_lookup_preserved (F : List (Key × FileRecord)) (fa : List Key)
    (rs : RunState) (l : List Key) (k : Key)
    (hk : k ∉ (runLoop F fa rs l).trace.map (fun t => t.key)) :
    lookupKey (runLoop F fa rs l).rs.primary k = lookupKey rs.primary k ∧
    lookupKey (runLoop F fa rs l).rs.secondary k = lookupKey rs.secondary k := by
  induction l generalizing rs with
  | nil => exact ⟨rfl, rfl⟩
  | cons k0 ks ih =>
    by_cases h1 : k0 ∈ rs.completed
    · rw [runLoop_cons_skip h1] at hk ⊢; exact ih rs hk
    · by_cases h2 : decide_action (lookupKey rs.primary k0)
          (lookupKey rs.secondary k0) (lookupKey F k0) = Action.noop
      · rw [runLoop_cons_noop h1 h2] at hk ⊢; exact ih rs hk
      · by_cases h3 : k0 ∈ fa
        · rw [runLoop_cons_fail h1 h2 h3]; exact ⟨rfl, rfl⟩
        · rw [runLoop_cons_act h1 h2 h3] at hk ⊢
          simp only [List.map_cons, List.mem_cons] at hk
          push_neg at hk
          have hrest := ih (stepAct rs k0 (decide_action (lookupKey rs.primary k0)
            (lookupKey rs.secondary k0) (lookupKey F k0))) hk.2
          have hone := stepAct_lookup_ne rs k0 (decide_action (lookupKey rs.primary k0)
            (lookupKey rs.secondary k0) (lookupKey F k0)) hk.1
          exact ⟨hrest.1.trans hone.1, hrest.2.trans hone.2⟩

/-- The loop never adds a key to, or removes a key from, the union of the
bucket key sets and the snapshot key set. -/
theorem runLoop_union (F : List (Key × FileRecord)) (fa : List Key)
    (rs : RunState) (l : List Key) (k : Key) :
    ((k ∈ keysOf (runLoop F fa rs l).rs.primary ∨
      k ∈ keysOf (runLoop F fa rs l).rs.secondary ∨ k ∈ keysOf F) ↔
     (k ∈ keysOf rs.primary ∨ k ∈ keysOf rs.secondary ∨ k ∈ keysOf F)) := by
  induction l generalizing rs with
  | nil => exact Iff.rfl
  | cons k0 ks ih =>
    by_cases h1 : k0 ∈ rs.completed
    · rw [runLoop_cons_skip h1]; exact ih rs
    · by_cases h2 : decide_action (lookupKey rs.primary k0)
          (lookupKey rs.secondary k0) (lookupKey F k0) = Action.noop
      · rw [runLoop_cons_noop h1 h2]; exact ih rs
      · by_cases h3 : k0 ∈ fa
        · rw [runLoop_cons_fail h1 h2 h3]
        · rw [runLoop_cons_act h1 h2 h3]
          exact (ih _).trans (stepAct_union rs F k0 h2 k)

/-- Each checkpoint persists the entire completed set so far: the sequence of
persisted sets is the cumulative extension of the starting completed set by
the executed keys. -/
theorem runLoop_checkpoints (F : List (Key × FileRecord)) (fa : List Key)
    (rs : RunState) (l : List Key) :
    (runLoop F fa rs l).trace.map (fun t => t.checkpoint) =
      cumulativeAppends rs.completed
        ((runLoop F fa rs l).trace.map (fun t => t.key)) := by
  induction l generalizing rs with
  | nil => rfl
  | cons k0 ks ih =>
    by_cases h1 : k0 ∈ rs.completed
    · rw [runLoop_cons_skip h1]; exact ih rs
    · by_cases h2 : decide_action (lookupKey rs.primary k0)
          (lookupKey rs.secondary k0) (lookupKey F k0) = Action.noop
      · rw [runLoop_cons_noop h1 h2]; exact ih rs
      · by_cases h3 : k0 ∈ fa
        · rw [runLoop_cons_fail h1 h2 h3]; rfl
        · rw [runLoop_cons_act h1 h2 h3]
          simp only [List.map_cons, cumulativeAppends]
          have := ih (stepAct rs k0 (decide_action (lookupKey rs.primary k0)
            (lookupKey rs.secondary k0) (lookupKey F k0)))
          rw [stepAct_completed] at this
          rw [this]

/-- Splitting a failure-free loop at any point: running the whole list is
running the first part, then the second from where the first stopped. -/
theorem runLoop_append (F : List (Key × FileRecord)) (rs : RunState)
    (l₁ l₂ : List Key) :
    runLoop F [] rs (l₁ ++ l₂) =
      ⟨(runLoop F [] (runLoop F [] rs l₁).rs l₂).rs,
       (runLoop F [] (runLoop F [] rs l₁).rs l₂).ok,
       (runLoop F [] rs l₁).trace ++
         (runLoop F [] (runLoop F [] rs l₁).rs l₂).trace⟩ := by
  induction l₁ generalizing rs with
  | nil => simp [runLoop_nil]
  | cons k0 ks ih =>
    rw [List.cons_append]
    by_cases h1 : k0 ∈ rs.completed
    · rw [runLoop_cons_skip h1, runLoop_cons_skip h1, ih rs]
    · by_cases h2 : decide_action (lookupKey rs.primary k0)
          (lookupKey rs.secondary k0) (lookupKey F k0) = Action.noop
      · rw [runLoop_cons_noop h1 h2, runLoop_cons_noop h1 h2, ih rs]
      · rw [runLoop_cons_act h1 h2 (List.not_mem_nil k0),
          runLoop_cons_act h1 h2 (List.not_mem_nil k0), ih _]
        rfl

/-- After a failure-free loop over a duplicate-free list, every visited key is
either completed or still decides to a noop. -/
theorem runLoop_post (F : List (Key × FileRecord)) (rs : RunState)
    (l : List Key) (hnd : l.Nodup) :
    ∀ k ∈ l, k ∈ (runLoop F [] rs l).rs.completed ∨
      decide_action (lookupKey (runLoop F [] rs l).rs.primary k)
        (lookupKey (runLoop F [] rs l).rs.secondary k)
        (lookupKey F k) = Action.noop := by
  induction l generalizing rs with
  | nil => simp
  | cons k0 ks ih =>
    have hk0 : k0 ∉ ks := (List.nodup_cons.mp hnd).1
    have hnd' : ks.Nodup := (List.nodup_cons.mp hnd).2
    intro k hk
    by_cases h1 : k0 ∈ rs.completed
    · rw [runLoop_cons_skip h1]
      rcases List.mem_cons.mp hk with hh | hh
      · subst hh
        left
        rw [runLoop_completed]
        exact List.mem_append.mpr (Or.inl h1)
      · exact ih rs hnd' k hh
    · by_cases h2 : decide_action (lookupKey rs.primary k0)
          (lookupKey rs.secondary k0) (lookupKey F k0) = Action.noop
      · rw [runLoop_cons_noop h1 h2]
        rcases List.mem_cons.mp hk with hh | hh
        · subst hh
          right
          have hnotin : k ∉ (runLoop F [] rs ks).trace.map (fun t => t.key) := by
            intro hc
            rcases List.mem_map.mp hc with ⟨t, ht, hkey⟩
            exact hk0 (hkey ▸ (runLoop_trace_keys F [] rs ks t ht).1)
          have hpre := runLoop_lookup_preserved F [] rs ks k hnotin
          rw [hpre.1, hpre.2]
          exact h2
        · exact ih rs hnd' k hh
      · rw [runLoop_cons_act h1 h2 (List.not_mem_nil k0)]
        rcases List.mem_cons.mp hk with hh | hh
        · subst hh
          left
          rw [runLoop_completed, stepAct_completed]
          exact List.mem_append.mpr (Or.inl (List.mem_append.mpr
            (Or.inr (List.mem_singleton.mpr rfl))))
        · exact ih _ hnd' k hh

/-- Re-visiting keys that are all completed or noops leaves everything
unchanged: the resumed run silently skips over the already-done work. -/
theorem runLoop_reprocess (F : List (Key × FileRecord)) (rs : RunState)
    (l : List Key)
    (h : ∀ k ∈ l, k ∈ rs.completed ∨
      decide_action (lookupKey rs.primary k) (lookupKey rs.secondary k)
        (lookupKey F k) = Action.noop) :
    runLoop F [] rs l = ⟨rs, true, []⟩ := by
  induction l with
  | nil => rfl
  | cons k0 ks ih =>
    rcases h k0 (List.mem_cons_self _ _) with hc | hc
    · rw [runLoop_cons_skip hc]
      exact ih (fun k hk => h k (List.mem_cons_of_mem _ hk))
    · by_cases h1 : k0 ∈ rs.completed
      · rw [runLoop_cons_skip h1]
        exact ih (fun k hk => h k (List.mem_cons_of_mem _ hk))
      · rw [runLoop_cons_noop h1 hc]
        exact ih (fun k hk => h k (List.mem_cons_of_mem _ hk))

/-! ### The embedded string order agrees with Mathlib's order on String -/

theorem charListLt_iff (l₁ l₂ : List Char) :
    charListLt l₁ l₂ = true ↔ List.Lex (· < ·) l₁ l₂ := by
  induction l₁ generalizing l₂ with
  | nil =>
    cases l₂ with
    | nil => simp [charListLt]
    | cons b bs => simp [charListLt]; exact List.Lex.nil
  | cons a as ih =>
    cases l₂ with
    | nil => simp [charListLt]
    | cons b bs =>
      rcases lt_trichotomy a b with h | h | h
      · simp only [charListLt, if_pos h]
        exact iff_of_true trivial (List.Lex.rel h)
      · subst h
        simp only [charListLt, if_neg (lt_irrefl a)]
        rw [ih bs]
        constructor
        · exact List.Lex.cons
        · intro hx
          cases hx with
          | cons h2 => exact h2
          | rel h2 => exact absurd h2 (lt_irrefl a)
      · simp only [charListLt, if_neg (not_lt_of_lt h), if_pos h]
        constructor
        · intro hfalse; exact absurd hfalse (by decide)
        · intro hx
          cases hx with
          | cons h2 => exact absurd h (lt_irrefl a)
          | rel h2 => exact absurd h2 (not_lt_of_lt h)

theorem pyLt_iff (a b : String) : pyLt a b = true ↔ a < b := by
  rw [String.lt_iff_toList_lt]
  exact charListLt_iff a.data b.data

theorem pyLe_iff (a b : String) : pyLe a b = true ↔ a ≤ b := by
  rw [pyLe, Bool.not_eq_true']
  constructor
  · intro h
    refine le_of_not_lt (fun hlt => ?_)
    rw [← pyLt_iff] at hlt
    rw [hlt] at h
    exact Bool.noConfusion h
  · intro h
    cases hc : pyLt b a with
    | false => rfl
    | true => exact absurd ((pyLt_iff b a).mp hc) (not_lt_of_le h)

instance : IsTotal String (fun a b => pyLe a b = true) :=
  ⟨fun a b => by
    rcases le_total a b with h | h
    · exact Or.inl ((pyLe_iff a b).mpr h)
    · exact Or.inr ((pyLe_iff b a).mpr h)⟩

instance : IsTrans String (fun a b => pyLe a b = true) :=
  ⟨fun a b c h1 h2 =>
    (pyLe_iff a c).mpr (le_trans ((pyLe_iff a b).mp h1) ((pyLe_iff b c).mp h2))⟩

instance : IsAntisymm String (fun a b => pyLe a b = true) :=
  ⟨fun a b h1 h2 => le_antisymm ((pyLe_iff a b).mp h1) ((pyLe_iff b a).mp h2)⟩

/-! ### Canonicality of the visited key list -/

theorem allKeys_sorted (P S : Listing) (F : List (Key × FileRecord)) :
    (allKeys P S F).Sorted (fun a b => pyLe a b = true) :=
  List.sorted_insertionSort _ _

theorem allKeys_sorted_le (P S : Listing) (F : List (Key × FileRecord)) :
    (allKeys P S F).Sorted (· ≤ ·) :=
  (allKeys_sorted P S F).imp (fun h => (pyLe_iff _ _).mp h)

theorem allKeys_nodup (P S : Listing) (F : List (Key × FileRecord)) :
    (allKeys P S F).Nodup :=
  (List.perm_insertionSort _ _).nodup_iff.mpr (List.nodup_dedup _)

theorem allKeys_mem (P S : Listing) (F : List (Key × FileRecord)) (k : Key) :
    k ∈ allKeys P S F ↔ (k ∈ keysOf P ∨ k ∈ keysOf S ∨ k ∈ keysOf F) := by
  rw [allKeys, (List.perm_insertionSort _ _).mem_iff, List.mem_dedup,
    List.mem_append, List.mem_append]
  tauto

theorem allKeys_congr (P P' S S' : Listing) (F : List (Key × FileRecord))
    (h : ∀ k, (k ∈ keysOf P' ∨ k ∈ keysOf S' ∨ k ∈ keysOf F) ↔
      (k ∈ keysOf P ∨ k ∈ keysOf S ∨ k ∈ keysOf F)) :
    allKeys P' S' F = allKeys P S F := by
  refine List.eq_of_perm_of_sorted ?_ (allKeys_sorted P' S' F) (allKeys_sorted P S F)
  refine (List.perm_ext_iff_of_nodup (allKeys_nodup P' S' F) (allKeys_nodup P S F)).mpr ?_
  intro a
  exact (allKeys_mem P' S' F a).trans ((h a).trans (allKeys_mem P S F a).symm)

/-- The cumulative checkpoint sequence grows monotonically. -/
theorem chain_cumulativeAppends (base ks : List Key) :
    List.Chain' (fun a b => a ⊆ b) (base :: cumulativeAppends base ks) := by
  induction ks generalizing base with
  | nil => simp [cumulativeAppends]
  | cons k ks ih =>
    rw [cumulativeAppends]
    exact List.chain'_cons.mpr ⟨List.subset_append_left _ _, ih (base ++ [k])⟩

/-! ### Run-level lemmas -/

theorem replicate_def (tNow : Time) (fa : List Key) (st : Store) :
    replicate_resilient tNow fa st =
      finishRun tNow st
        (runLoop (load_state tNow st).files fa (initRS st) (planKeys tNow st)) := rfl

theorem finishRun_ok {tNow : Time} {st : Store} {out : LoopOut}
    (h : out.ok = true) :
    finishRun tNow st out =
      { store := { primary := out.rs.primary, secondary := out.rs.secondary,
                   stateObj := Option.some
                     { files := rebuild_files_state tNow out.rs.primary out.rs.secondary,
                       last_updated := tNow },
                   logObj := Option.none },
        outcome := Outcome.completed, trace := out.trace, clearedLog := true } := by
  rw [finishRun, if_pos h]

theorem finishRun_fail {tNow : Time} {st : Store} {out : LoopOut}
    (h : out.ok = false) :
    finishRun tNow st out =
      { store := { primary := out.rs.primary, secondary := out.rs.secondary,
                   stateObj := st.stateObj, logObj := out.rs.savedLog },
        outcome := Outcome.abortedOnError, trace := out.trace, clearedLog := false } := by
  rw [finishRun, if_neg (by rw [h]; exact Bool.false_ne_true)]

theorem initRS_savedLog_inv (st : Store) :
    loadLogKeys (initRS st).savedLog = (initRS st).completed := rfl

/-- Resuming a failure-free loop from the state reached after a prefix, over
the full key list again, ends in the same state as the uninterrupted loop. -/
theorem runLoop_resume (F : List (Key × FileRecord)) (init : RunState)
    (l₁ l₂ : List Key) (hnd : (l₁ ++ l₂).Nodup) :
    (runLoop F [] (runLoop F [] init l₁).rs (l₁ ++ l₂)).rs =
      (runLoop F [] init (l₁ ++ l₂)).rs := by
  have hpost := runLoop_post F init l₁ (List.nodup_append.mp hnd).1
  have hre := runLoop_reprocess F (runLoop F [] init l₁).rs l₁ hpost
  rw [runLoop_append, runLoop_append, hre]

/-- The resumed loop's executed actions are exactly those of the suffix the
interrupted run never reached. -/
theorem runLoop_resume_trace (F : List (Key × FileRecord)) (init : RunState)
    (l₁ l₂ : List Key) (hnd : (l₁ ++ l₂).Nodup) :
    (runLoop F [] (runLoop F [] init l₁).rs (l₁ ++ l₂)).trace =
      (runLoop F [] (runLoop F [] init l₁).rs l₂).trace := by
  have hpost := runLoop_post F init l₁ (List.nodup_append.mp hnd).1
  have hre := runLoop_reprocess F (runLoop F [] init l₁).rs l₁ hpost
  rw [runLoop_append, hre]
  rfl

/-- On well-formed listings Python's truthiness test on `d.get(key)` is
exactly key presence. -/
theorem truthy_lookup_of_wf :
    ∀ {l : Listing}, ListingWF l → ∀ k : Key,
      truthy (lookupKey l k) = (lookupKey l k).isSome := by
  intro l
  induction l with
  | nil => intro _ k; rfl
  | cons p rest ih =>
    intro hl k
    rw [lookupKey_cons]
    by_cases hp : k = p.1
    · rw [if_pos hp]
      have hne : p.2 ≠ "" := hl p (List.mem_cons_self _ _)
      simp [truthy, hne]
    · rw [if_neg hp]
      exact ih (fun q hq => hl q (List.mem_cons_of_mem _ hq)) k

theorem finishRun_trace (tNow : Time) (st : Store) (out : LoopOut) :
    (finishRun tNow st out).trace = out.trace := by
  unfold finishRun
  by_cases h : out.ok = true
  · rw [if_pos h]
  · rw [if_neg h]

theorem finishRun_cleared_iff (tNow : Time) (st : Store) (out : LoopOut) :
    ((finishRun tNow st out).clearedLog = true ↔
      (finishRun tNow st out).outcome = Outcome.completed) := by
  unfold finishRun
  by_cases h : out.ok = true
  · rw [if_pos h]
    exact iff_of_true rfl rfl
  · rw [if_neg h]
    exact iff_of_false Bool.false_ne_true (fun hh => Outcome.noConfusion hh)

theorem lookupKey_map_record (f : Key → FileRecord) (l : List Key) (k : Key) :
    lookupKey (l.map (fun key => (key, f key))) k =
      if k ∈ l then Option.some (f k) else Option.none := by
  induction l with
  | nil => simp [lookupKey]
  | cons a rest ih =>
    rw [List.map_cons, lookupKey_cons]
    by_cases h : k = a
    · simp [h]
    · simp only [ih, List.mem_cons]
      by_cases h2 : k ∈ rest
      · simp [h, h2]
      · simp [h, h2]

/-! ### Claim theorems -/

/-- C1 (code bug): `list_bucket_objects` never propagates a listing failure.
At the failing input where pagination raises immediately (no pages
retrieved), it returns the empty listing, and in general its result is
entirely independent of whether a `ClientError` occurred — the error is
caught, printed, and discarded, so the run proceeds to planning with an
empty listing, exactly what the spec calls the mass-deletion hazard. -/
theorem claim_C1_listing_error_swallowed :
    list_bucket_objects { objects := [], error := Option.some ⟨"AccessDenied"⟩ } = [] ∧
    (∀ (objs : List (Key × Time)) (err : Option ClientError),
      list_bucket_objects { objects := objs, error := err } =
        list_bucket_objects { objects := objs, error := Option.none }) :=
  ⟨rfl, fun _ _ => rfl⟩

/-- C2: for a key visited by the planner, on well-formed listings (nonempty
timestamp strings, as `isoformat()` produces): present only in primary →
delete-from-primary when the snapshot record lists `secondary` in
`last_seen_in`, else copy primary→secondary; symmetrically for
present only in secondary; present in both or absent from both → no
action. -/
theorem claim_C2_planner_decision (P S : Listing) (F : List (Key × FileRecord))
    (k : Key) (hP : ListingWF P) (hS : ListingWF S) :
    ((lookupKey P k).isSome = true → lookupKey S k = Option.none →
      decide_action (lookupKey P k) (lookupKey S k) (lookupKey F k) =
        (if seenIn (lookupKey F k) "secondary" then Action.deleteFromPrimary
         else Action.copyPrimaryToSecondary)) ∧
    ((lookupKey S k).isSome = true → lookupKey P k = Option.none →
      decide_action (lookupKey P k) (lookupKey S k) (lookupKey F k) =
        (if seenIn (lookupKey F k) "primary" then Action.deleteFromSecondary
         else Action.copySecondaryToPrimary)) ∧
    (((lookupKey P k).isSome = true ∧ (lookupKey S k).isSome = true) ∨
      (lookupKey P k = Option.none ∧ lookupKey S k = Option.none) →
      decide_action (lookupKey P k) (lookupKey S k) (lookupKey F k) = Action.noop) := by
  have hP' := truthy_lookup_of_wf hP k
  have hS' := truthy_lookup_of_wf hS k
  refine ⟨?_, ?_, ?_⟩
  · intro h1 h2
    have ht1 : truthy (lookupKey P k) = true := by rw [hP', h1]
    have ht2 : truthy (lookupKey S k) = false := by rw [h2]; rfl
    simp [decide_action, ht1, ht2]
  · intro h1 h2
    have ht1 : truthy (lookupKey S k) = true := by rw [hS', h1]
    have ht2 : truthy (lookupKey P k) = false := by rw [h2]; rfl
    simp [decide_action, ht1, ht2]
  · rintro (⟨h1, h2⟩ | ⟨h1, h2⟩)
    · have ht1 : truthy (lookupKey P k) = true := by rw [hP', h1]
      have ht2 : truthy (lookupKey S k) = true := by rw [hS', h2]
      simp [decide_action, ht1, ht2]
    · have ht1 : truthy (lookupKey P k) = false := by rw [h1]; rfl
      have ht2 : truthy (lookupKey S k) = false := by rw [h2]; rfl
      simp [decide_action, ht1, ht2]

theorem claim_C2_planner_decision_witness :
    decide_action (lookupKey [(("x" : Key), ("2024" : Time))] "x")
      (lookupKey ([] : Listing) "x")
      (lookupKey [(("x" : Key),
        ({ last_synced := "t", last_seen_in := ["primary", "secondary"],
           source := "equal" } : FileRecord))] "x") = Action.deleteFromPrimary := by
  have h := (claim_C2_planner_decision [("x", "2024")] []
    [("x", { last_synced := "t", last_seen_in := ["primary", "secondary"],
             source := "equal" })] "x"
    (by decide) (by decide)).1 (by decide) (by decide)
  rw [h]
  decide

/-- C5: within a run the persisted checkpoint sets are the cumulative
extensions of the prior run's completed set by each executed key in turn (the
entire completed set, not a delta, is persisted at each step, between one
key's action and the next key), they grow monotonically, and
`delete_progress_log` runs exactly when the run completes successfully. -/
theorem claim_C5_checkpoint_monotone (tNow : Time) (fa : List Key) (st : Store) :
    ((replicate_resilient tNow fa st).trace.map (fun t => t.checkpoint) =
      cumulativeAppends (loadLogKeys st.logObj)
        ((replicate_resilient tNow fa st).trace.map (fun t => t.key))) ∧
    List.Chain' (fun a b => a ⊆ b)
      (loadLogKeys st.logObj ::
        (replicate_resilient tNow fa st).trace.map (fun t => t.checkpoint)) ∧
    ((replicate_resilient tNow fa st).clearedLog = true ↔
      (replicate_resilient tNow fa st).outcome = Outcome.completed) := by
  have htr : (replicate_resilient tNow fa st).trace =
      (runLoop (load_state tNow st).files fa (initRS st) (planKeys tNow st)).trace := by
    rw [replicate_def, finishRun_trace]
  refine ⟨?_, ?_, ?_⟩
  · rw [htr]
    exact runLoop_checkpoints _ _ _ _
  · rw [htr, runLoop_checkpoints]
    exact chain_cumulativeAppends _ _
  · rw [replicate_def]
    exact finishRun_cleared_iff _ _ _

/-- C9: the loop visits exactly the union of the primary listing's keys, the
secondary listing's keys and the snapshot's keys, with no duplicates, in
ascending lexicographic order; and a key already in the previously completed
set is skipped entirely — no executed action (hence no remote operation and
no checkpoint write triggered by it) ever carries such a key. -/
theorem claim_C9_visit_order (tNow : Time) (st : Store) :
    ((planKeys tNow st).Sorted (· ≤ ·) ∧ (planKeys tNow st).Nodup ∧
      (∀ k, k ∈ planKeys tNow st ↔ (k ∈ keysOf st.primary ∨
        k ∈ keysOf st.secondary ∨ k ∈ keysOf (load_state tNow st).files))) ∧
    (∀ (fa : List Key) (k : Key), k ∈ loadLogKeys st.logObj →
      k ∉ (replicate_resilient tNow fa st).trace.map (fun t => t.key)) := by
  refine ⟨⟨allKeys_sorted_le _ _ _, allKeys_nodup _ _ _,
    fun k => allKeys_mem _ _ _ k⟩, ?_⟩
  intro fa k hk hc
  rw [replicate_def, finishRun_trace] at hc
  rcases List.mem_map.mp hc with ⟨t, ht, hkey⟩
  exact (runLoop_trace_keys (load_state tNow st).files fa (initRS st)
    (planKeys tNow st) t ht).2 (hkey.symm ▸ hk)

theorem claim_C9_visit_order_witness :
    ("a" : Key) ∉ (replicate_resilient "T" []
      { primary := [("a", "1")], secondary := [], stateObj := Option.none,
        logObj := Option.some ["a"] }).trace.map (fun t => t.key) :=
  (claim_C9_visit_order "T"
    { primary := [("a", "1")], secondary := [], stateObj := Option.none,
      logObj := Option.some ["a"] }).2 [] "a" (by decide)

/-- C3: interrupting the run immediately after the checkpoint persisted at the
end of any visited prefix (in particular right after the checkpoint for any
key K) and re-running against the resulting world produces the same final
replica contents and the same rebuilt snapshot as a single uninterrupted run,
with the same outcome; moreover the resumed run executes no action — in
particular no destructive one — for any key recorded in the persisted
checkpoint. -/
theorem claim_C3_idempotent_resumption (tNow : Time) (st : Store) (n : Nat) :
    (replicate_resilient tNow [] (midRunStore tNow st n)).store =
      (replicate_resilient tNow [] st).store ∧
    (replicate_resilient tNow [] (midRunStore tNow st n)).outcome =
      (replicate_resilient tNow [] st).outcome ∧
    (∀ t ∈ (replicate_resilient tNow [] (midRunStore tNow st n)).trace,
      t.key ∉ loadLogKeys (midRunStore tNow st n).logObj) := by
  have hlog : loadLogKeys (runLoop (load_state tNow st).files [] (initRS st)
        ((planKeys tNow st).take n)).rs.savedLog =
      (runLoop (load_state tNow st).files [] (initRS st)
        ((planKeys tNow st).take n)).rs.completed :=
    runLoop_savedLog _ _ _ _ (initRS_savedLog_inv st)
  have hload : load_state tNow (midRunStore tNow st n) = load_state tNow st := rfl
  have hinit : initRS (midRunStore tNow st n) =
      (runLoop (load_state tNow st).files [] (initRS st)
        ((planKeys tNow st).take n)).rs := by
    rw [show initRS (midRunStore tNow st n) =
        ⟨(runLoop (load_state tNow st).files [] (initRS st)
            ((planKeys tNow st).take n)).rs.primary,
          (runLoop (load_state tNow st).files [] (initRS st)
            ((planKeys tNow st).take n)).rs.secondary,
          loadLogKeys (runLoop (load_state tNow st).files [] (initRS st)
            ((planKeys tNow st).take n)).rs.savedLog,
          (runLoop (load_state tNow st).files [] (initRS st)
            ((planKeys tNow st).take n)).rs.savedLog⟩ from rfl, hlog]
  have hplan : planKeys tNow (midRunStore tNow st n) = planKeys tNow st := by
    show allKeys
        (runLoop (load_state tNow st).files [] (initRS st)
          ((planKeys tNow st).take n)).rs.primary
        (runLoop (load_state tNow st).files [] (initRS st)
          ((planKeys tNow st).take n)).rs.secondary
        (load_state tNow st).files
      = allKeys st.primary st.secondary (load_state tNow st).files
    exact allKeys_congr st.primary _ st.secondary _ _
      (fun k => runLoop_union (load_state tNow st).files [] (initRS st)
        ((planKeys tNow st).take n) k)
  have hnd : ((planKeys tNow st).take n ++ (planKeys tNow st).drop n).Nodup := by
    rw [List.take_append_drop]
    exact allKeys_nodup st.primary st.secondary (load_state tNow st).files
  have hres : (runLoop (load_state tNow st).files []
        (runLoop (load_state tNow st).files [] (initRS st)
          ((planKeys tNow st).take n)).rs (planKeys tNow st)).rs =
      (runLoop (load_state tNow st).files [] (initRS st) (planKeys tNow st)).rs := by
    have h2 := runLoop_resume (load_state tNow st).files (initRS st)
      ((planKeys tNow st).take n) ((planKeys tNow st).drop n) hnd
    rwa [List.take_append_drop] at h2
  rw [replicate_def tNow [] (midRunStore tNow st n), replicate_def tNow [] st,
    hload, hinit, hplan,
    finishRun_ok (runLoop_ok_nofail (load_state tNow st).files _ (planKeys tNow st)),
    finishRun_ok (runLoop_ok_nofail (load_state tNow st).files _ (planKeys tNow st))]
  refine ⟨?_, ?_, ?_⟩
  · rw [hres]
  · rfl
  · intro t ht
    have hkey := runLoop_trace_keys (load_state tNow st).files []
      (runLoop (load_state tNow st).files [] (initRS st)
        ((planKeys tNow st).take n)).rs (planKeys tNow st) t ht
    rw [show loadLogKeys (midRunStore tNow st n).logObj =
        loadLogKeys (runLoop (load_state tNow st).files [] (initRS st)
          ((planKeys tNow st).take n)).rs.savedLog from rfl, hlog]
    exact hkey.2

/-- C4 (amended): when a single copy/delete raises, the loop returns at once
without examining any later key and without touching the buckets or the
checkpoint; an aborted run leaves the snapshot object untouched, never calls
`delete_progress_log`, and its log object still holds the prior completed
set extended by every key checkpointed this run; but the process returns
normally — every modelled error is caught — so the script exits 0 instead of
raising or exiting non-zero. -/
theorem claim_C4_amended_failfast :
    (∀ (F : List (Key × FileRecord)) (fa : List Key) (rs : RunState) (k : Key)
        (ks : List Key), k ∉ rs.completed →
      decide_action (lookupKey rs.primary k) (lookupKey rs.secondary k)
        (lookupKey F k) ≠ Action.noop →
      k ∈ fa → runLoop F fa rs (k :: ks) = ⟨rs, false, []⟩) ∧
    (∀ (tNow : Time) (fa : List Key) (st : Store),
      (replicate_resilient tNow fa st).outcome = Outcome.abortedOnError →
      (replicate_resilient tNow fa st).store.stateObj = st.stateObj ∧
      (replicate_resilient tNow fa st).clearedLog = false ∧
      loadLogKeys (replicate_resilient tNow fa st).store.logObj =
        loadLogKeys st.logObj ++
          (replicate_resilient tNow fa st).trace.map (fun t => t.key)) ∧
    (∀ (tNow : Time) (fa : List Key) (st : Store),
      scriptExitCode tNow fa st = 0) := by
  refine ⟨fun F fa rs k ks h1 h2 h3 => runLoop_cons_fail h1 h2 h3, ?_,
    fun _ _ _ => rfl⟩
  intro tNow fa st habort
  cases hcase : (runLoop (load_state tNow st).files fa (initRS st)
      (planKeys tNow st)).ok with
  | true =>
    rw [replicate_def, finishRun_ok hcase] at habort
    exact absurd habort (fun hh => Outcome.noConfusion hh)
  | false =>
    rw [replicate_def, finishRun_fail hcase]
    refine ⟨rfl, rfl, ?_⟩
    show loadLogKeys (runLoop (load_state tNow st).files fa (initRS st)
        (planKeys tNow st)).rs.savedLog =
      loadLogKeys st.logObj ++
        (runLoop (load_state tNow st).files fa (initRS st)
          (planKeys tNow st)).trace.map (fun t => t.key)
    rw [runLoop_savedLog _ _ _ _ (initRS_savedLog_inv st), runLoop_completed]
    rfl

theorem claim_C4_amended_failfast_witness :
    runLoop [] ["b"]
      { primary := [("b", "1")], secondary := [], completed := [],
        savedLog := Option.none } ["b"] =
      ⟨{ primary := [("b", "1")], secondary := [], completed := [],
         savedLog := Option.none }, false, []⟩ :=
  claim_C4_amended_failfast.1 [] ["b"]
    { primary := [("b", "1")], secondary := [], completed := [],
      savedLog := Option.none }
    "b" [] (by decide) (by decide) (by decide)

/-- C4 counterexample: a run in which the action for key b fails does abort
(keys after b are never processed and the checkpoint for the already-synced
key a stays in the log object), yet the script's exit code is 0 — the
`except` arm returns from `replicate_resilient` normally and `__main__`
prints the success banner — refuting the claim that such a run "terminates
with a non-zero exit or a raised error rather than completing normally". -/
theorem claim_C4_counterexample_exit_zero :
    (replicate_resilient "T" ["b"]
      { primary := [("a", "1"), ("c", "1")], secondary := [("b", "1")],
        stateObj := Option.none, logObj := Option.none }).outcome =
      Outcome.abortedOnError ∧
    (replicate_resilient "T" ["b"]
      { primary := [("a", "1"), ("c", "1")], secondary := [("b", "1")],
        stateObj := Option.none, logObj := Option.none }).store.logObj =
      Option.some ["a"] ∧
    scriptExitCode "T" ["b"]
      { primary := [("a", "1"), ("c", "1")], secondary := [("b", "1")],
        stateObj := Option.none, logObj := Option.none } = 0 :=
  ⟨by decide, by decide, rfl⟩

/-- C6 (amended): for every key in the union of the two listings the rebuilt
record exists, has `last_synced` equal to the current time and `last_seen_in`
listing exactly the replicas containing the key; `source` is the replica
with the strictly greater modification time where a missing side is treated
as the empty string — so a key present on only one side gets that side as
its `source` (not "equal"); "equal" only when the defaulted timestamps
tie. -/
theorem claim_C6_amended_rebuild (tNow : Time) (P S : Listing) (k : Key)
    (h : k ∈ keysOf P ∨ k ∈ keysOf S) :
    lookupKey (rebuild_files_state tNow P S) k =
      Option.some (rebuildRecord tNow P S k) ∧
    (rebuildRecord tNow P S k).last_synced = tNow ∧
    ("primary" ∈ (rebuildRecord tNow P S k).last_seen_in ↔ k ∈ keysOf P) ∧
    ("secondary" ∈ (rebuildRecord tNow P S k).last_seen_in ↔ k ∈ keysOf S) ∧
    (((lookupKey S k).getD "" < (lookupKey P k).getD "" →
        (rebuildRecord tNow P S k).source = "primary") ∧
     ((lookupKey P k).getD "" < (lookupKey S k).getD "" →
        (rebuildRecord tNow P S k).source = "secondary") ∧
     ((lookupKey P k).getD "" = (lookupKey S k).getD "" →
        (rebuildRecord tNow P S k).source = "equal")) := by
  refine ⟨?_, rfl, ?_, ?_, ?_, ?_, ?_⟩
  · rw [rebuild_files_state, lookupKey_map_record,
      if_pos (List.mem_dedup.mpr (List.mem_append.mpr h))]
  · rw [mem_keysOf_iff_isSome]
    by_cases hp : (lookupKey P k).isSome = true <;>
      by_cases hs : (lookupKey S k).isSome = true <;>
        simp [rebuildRecord, hp, hs]
  · rw [mem_keysOf_iff_isSome]
    by_cases hp : (lookupKey P k).isSome = true <;>
      by_cases hs : (lookupKey S k).isSome = true <;>
        simp [rebuildRecord, hp, hs]
  · intro hlt
    have h1 : pyLt ((lookupKey S k).getD "") ((lookupKey P k).getD "") = true :=
      (pyLt_iff _ _).mpr hlt
    simp [rebuildRecord, h1]
  · intro hlt
    have h1 : ¬ pyLt ((lookupKey S k).getD "") ((lookupKey P k).getD "") = true :=
      fun hc => absurd ((pyLt_iff _ _).mp hc) (not_lt_of_lt hlt)
    have h2 : pyLt ((lookupKey P k).getD "") ((lookupKey S k).getD "") = true :=
      (pyLt_iff _ _).mpr hlt
    simp [rebuildRecord, h1, h2]
  · intro heq
    have h1 : ¬ pyLt ((lookupKey S k).getD "") ((lookupKey P k).getD "") = true :=
      fun hc => absurd ((pyLt_iff _ _).mp hc) (by rw [heq]; exact lt_irrefl _)
    have h2 : ¬ pyLt ((lookupKey P k).getD "") ((lookupKey S k).getD "") = true :=
      fun hc => absurd ((pyLt_iff _ _).mp hc) (by rw [heq]; exact lt_irrefl _)
    simp [rebuildRecord, h1, h2]

theorem claim_C6_amended_rebuild_witness :
    lookupKey (rebuild_files_state "T" [("a", "2024")] []) "a" =
      Option.some (rebuildRecord "T" [("a", "2024")] [] "a") ∧
    (rebuildRecord "T" [("a", "2024")] [] "a").source = "primary" := by
  refine ⟨(claim_C6_amended_rebuild "T" [("a", "2024")] [] "a" (by decide)).1, ?_⟩
  exact (claim_C6_amended_rebuild "T" [("a", "2024")] [] "a" (by decide)).2.2.2.2.1
    ((pyLt_iff "" "2024").mp (by decide))

/-- C6 counterexample: a key present only in the primary listing gets
`source = "primary"` (its nonempty timestamp compares greater than the
empty-string default of the missing side), not the "equal" the claim
prescribes for a key with no timestamp on one side. -/
theorem claim_C6_counterexample_one_sided_source :
    ((lookupKey (rebuild_files_state "T"
        [("a", "2024-01-01T00:00:00+00:00")] []) "a").map (fun r => r.source)) =
      Option.some "primary" ∧
    Option.some ("primary" : String) ≠ Option.some ("equal" : String) :=
  ⟨by decide, by decide⟩

/-- C7 (amended): loading the progress log consults only the primary
replica's copy — the result is entirely independent of the secondary
replica's copy; it returns the stored key set when the primary copy is
readable and the empty set when the primary read fails in any way. -/
theorem claim_C7_amended_log_primary_only :
    (∀ (pr sr sr' : Except ClientError (List Key)),
      load_progress_log ⟨pr, sr⟩ = load_progress_log ⟨pr, sr'⟩) ∧
    (∀ (l : List Key) (sr : Except ClientError (List Key)),
      (load_progress_log ⟨Except.ok l, sr⟩).1 = l) ∧
    (∀ (e : ClientError) (sr : Except ClientError (List Key)),
      (load_progress_log ⟨Except.error e, sr⟩).1 = []) := by
  refine ⟨fun pr sr sr' => rfl, fun l sr => rfl, fun e sr => ?_⟩
  show (if e.code = "NoSuchKey" then (([] : List Key), ([] : List String))
    else ([], ["could not load progress log, proceeding without it"])).1 = []
  by_cases h : e.code = "NoSuchKey"
  · rw [if_pos h]
  · rw [if_neg h]

/-- C7 counterexample: the primary read fails (not `NoSuchKey`) while the
secondary replica holds a perfectly readable copy `["k1"]`; the claim's
first-available read would return `["k1"]`, but the code returns the empty
set because it never looks at the secondary replica. -/
theorem claim_C7_counterexample_secondary_copy_ignored :
    (load_progress_log ⟨Except.error ⟨"ServiceUnavailable"⟩,
      Except.ok ["k1"]⟩).1 = [] ∧
    (["k1"] : List Key) ≠ [] :=
  ⟨by decide, by decide⟩

/-- C8 (amended): each of the two snapshot writes is attempted independently;
a failed write on either replica only adds a printed warning while the other
replica is still written — and when both writes fail `save_state` still
returns normally with two warnings, surfacing no error to its caller. -/
theorem claim_C8_amended_save_state_nonfatal (env : PutEnv) :
    (save_state env).savedTo =
      (if env.primaryPutFails then [] else ["primary"]) ++
      (if env.secondaryPutFails then [] else ["secondary"]) ∧
    (save_state env).warnings.length =
      ((if env.primaryPutFails then 1 else 0) +
       (if env.secondaryPutFails then 1 else 0)) := by
  cases env with
  | mk p s => cases p <;> cases s <;> exact ⟨rfl, rfl⟩

/-- C8 counterexample: with both `put_object` calls failing, `save_state`
completes normally, returning a `SaveOutcome` that records no successful
write and two warnings — no run-level error reaches the caller, refuting the
claim's second half. -/
theorem claim_C8_counterexample_both_fail_silent :
    save_state ⟨true, true⟩ =
      { savedTo := ([] : List String),
        warnings := ["could not save final state to primary",
                     "could not save final state to secondary"] } := by decide

/-- C10: on any progress-log read failure other than `NoSuchKey`, the
function prints a warning and returns the empty set instead of raising, so
the run proceeds as if nothing had been completed in the prior run. -/
theorem claim_C10_unreadable_log_empty (e : ClientError)
    (sr : Except ClientError (List Key)) (h : e.code ≠ "NoSuchKey") :
    (load_progress_log ⟨Except.error e, sr⟩).1 = [] ∧
    (load_progress_log ⟨Except.error e, sr⟩).2 =
      ["could not load progress log, proceeding without it"] := by
  have hh : load_progress_log ⟨Except.error e, sr⟩ =
      ([], ["could not load progress log, proceeding without it"]) := by
    show (if e.code = "NoSuchKey" then (([] : List Key), ([] : List String))
      else ([], ["could not load progress log, proceeding without it"])) = _
    rw [if_neg h]
  rw [hh]
  exact ⟨rfl, rfl⟩

theorem claim_C10_unreadable_log_empty_witness :
    (load_progress_log ⟨Except.error ⟨"AccessDenied"⟩, Except.ok []⟩).1 = [] ∧
    (load_progress_log ⟨Except.error ⟨"AccessDenied"⟩, Except.ok []⟩).2 =
      ["could not load progress log, proceeding without it"] :=
  claim_C10_unreadable_log_empty ⟨"AccessDenied"⟩ (Except.ok []) (by decide)

end S3Rep
